import Mathlib

/-!
Verification of the MazeWar concurrent network game server core.

This file gives a shallow embedding, in Lean 4, of the sequential content of
the server's C modules (`maze.c`, `protocol.c`, `client_registry.c`,
`server.c`, `player.c`, `main.c`) and proves or refutes the specified
properties of those modules.  Machine integers are modelled as `Nat`/`Int`
with explicit `% 2^w` where overflow matters; fallible operations return
`Option`; the shared-memory operations (which in C run under a mutex) are
modelled as atomic sequential state transformers.
-/

namespace MazeWar

/-- Gaze/movement direction, encoded 0..3 in the order NORTH, WEST, SOUTH,
EAST, matching the `DIRECTION` encoding used to index the per-direction
offset arrays in `maze.c`. -/
inductive Dir where
  | north
  | west
  | south
  | east

instance : DecidableEq Dir := fun a b => by
  cases a <;> cases b <;> first
    | exact isTrue rfl
    | exact isFalse (by intro h; exact Dir.noConfusion h)

/-- Modelled from the spec: `maze.h` is not under src/.  The EMPTY cell
object is the space character. -/
def EMPTY : Char := ' '

/-- Modelled from the spec: `maze.h` is not under src/.  IS_EMPTY tests for
the space character. -/
def IS_EMPTY (c : Char) : Bool := c = EMPTY

/-- Modelled from the spec: `maze.h` is not under src/.  AVATAR bytes are
the ASCII letters A..Z. -/
def IS_AVATAR (c : Char) : Bool := 'A' ≤ c && c ≤ 'Z'

/-- Forward row offset per direction: the `drow` array `{-1, 0, 1, 0}` of
`maze.c` (indexed NORTH, WEST, SOUTH, EAST). -/
def drow : Dir → Int
  | .north => -1
  | .west => 0
  | .south => 1
  | .east => 0

/-- Forward column offset per direction: the `dcol` array `{0, -1, 0, 1}`
of `maze.c`. -/
def dcol : Dir → Int
  | .north => 0
  | .west => -1
  | .south => 0
  | .east => 1

/-- Row offset of the cell emitted as LEFT_WALL: the `lrow` array
`{0, -1, 0, 1}` of `maze_get_view`. -/
def lrow : Dir → Int
  | .north => 0
  | .west => -1
  | .south => 0
  | .east => 1

/-- Column offset of the cell emitted as LEFT_WALL: the `lcol` array
`{-1, 0, 1, 0}` of `maze_get_view`. -/
def lcol : Dir → Int
  | .north => -1
  | .west => 0
  | .south => 1
  | .east => 0

/-- The maze: a grid of cell bytes, as the row-array `maze` of `maze.c`. -/
structure MazeT where
  grid : List (List Char)

instance : DecidableEq MazeT := fun a b => by
  cases a; cases b
  exact decidable_of_iff _ (iff_of_eq (MazeT.mk.injEq _ _)).symm

/-- Number of rows (`maze_rows` / `maze_get_rows`). -/
def maze_get_rows (m : MazeT) : Int := m.grid.length

/-- Number of columns (`maze_cols` / `maze_get_cols`): the length of the
first template row, as computed by `maze_init`. -/
def maze_get_cols (m : MazeT) : Int := (m.grid.headD []).length

/-- The bounds check performed by the maze primitives:
`0 <= row < maze_rows` and `0 <= col < maze_cols`. -/
def inB (m : MazeT) (row col : Int) : Prop :=
  0 ≤ row ∧ row < maze_get_rows m ∧ 0 ≤ col ∧ col < maze_get_cols m

instance (m : MazeT) (row col : Int) : Decidable (inB m row col) := by
  unfold inB; infer_instance

/-- The cell read `maze[row][col]` (meaningful under `inB`; out of range it
defaults rather than exhibiting the C undefined behavior). -/
def cellAt (m : MazeT) (row col : Int) : Char :=
  (m.grid.getD row.toNat []).getD col.toNat EMPTY

/-- The cell write `maze[row][col] = v`. -/
def setCell (m : MazeT) (row col : Int) (v : Char) : MazeT :=
  ⟨m.grid.set row.toNat ((m.grid.getD row.toNat []).set col.toNat v)⟩

/-- All rows have the length `maze_get_cols` (the rectangularity assumption
`maze_init` makes of its template: "Assume all rows same length"). -/
def Uniform (m : MazeT) : Prop :=
  ∀ row ∈ m.grid, row.length = (m.grid.headD []).length

instance (m : MazeT) : Decidable (Uniform m) := by
  unfold Uniform; infer_instance

/-- `maze_set_player` of `maze.c`: succeeds iff `(row, col)` is in bounds
and the cell is EMPTY, writing the avatar there. -/
def maze_set_player (m : MazeT) (avatar : Char) (row col : Int) : Option MazeT :=
  if inB m row col ∧ IS_EMPTY (cellAt m row col) then
    some (setCell m row col avatar)
  else
    none

/-- `maze_remove_player` of `maze.c`: writes EMPTY iff the cell currently
holds this avatar (no bounds check is performed by the C code). -/
def maze_remove_player (m : MazeT) (avatar : Char) (row col : Int) : MazeT :=
  if cellAt m row col = avatar then setCell m row col EMPTY else m

/-- The attempt loop of `maze_set_player_random`: attempt `i` draws the
pair of `rand()` values `rand i` and reduces them mod the maze dimensions;
at most `fuel` attempts are made. -/
def maze_set_player_random_go (m : MazeT) (avatar : Char) (rand : Nat → Nat × Nat) :
    Nat → Nat → Option (Int × Int × MazeT)
  | _, 0 => none
  | i, fuel + 1 =>
    let r : Int := ((rand i).1 % m.grid.length : Nat)
    let c : Int := ((rand i).2 % (m.grid.headD []).length : Nat)
    match maze_set_player m avatar r c with
    | some m2 => some (r, c, m2)
    | none => maze_set_player_random_go m avatar rand (i + 1) fuel

/-- `maze_set_player_random` of `maze.c`: up to 1000 random attempts at
`maze_set_player`; the successful coordinates are reported, and `none`
(failure) is returned when every attempt fails. -/
def maze_set_player_random (m : MazeT) (avatar : Char) (rand : Nat → Nat × Nat) :
    Option (Int × Int × MazeT) :=
  maze_set_player_random_go m avatar rand 0 1000

/-- `maze_move` of `maze.c`: fails unless the source is in bounds and holds
an AVATAR and the forward neighbor is in bounds and EMPTY; on success the
avatar byte moves to the neighbor and the source becomes EMPTY. -/
def maze_move (m : MazeT) (row col : Int) (d : Dir) : Option MazeT :=
  if ¬ inB m row col ∨ ¬ IS_AVATAR (cellAt m row col) then none
  else if ¬ inB m (row + drow d) (col + dcol d) ∨
      ¬ IS_EMPTY (cellAt m (row + drow d) (col + dcol d)) then none
  else some (setCell (setCell m (row + drow d) (col + dcol d) (cellAt m row col))
    row col EMPTY)

/-- The scan loop of `maze_find_target`: from the current position, step
once in direction `d`; stop with EMPTY at the grid edge, stop with the cell
byte (if an AVATAR, else EMPTY) at the first non-EMPTY cell, and continue
otherwise.  `fuel` bounds the walk (the caller passes enough to reach the
edge). -/
def maze_find_target_go (m : MazeT) (d : Dir) : Int → Int → Nat → Char
  | _, _, 0 => EMPTY
  | row, col, fuel + 1 =>
    if inB m row col then
      let r := row + drow d
      let c := col + dcol d
      if ¬ inB m r c then EMPTY
      else if ¬ IS_EMPTY (cellAt m r c) then
        if IS_AVATAR (cellAt m r c) then cellAt m r c else EMPTY
      else maze_find_target_go m d r c fuel
    else EMPTY

/-- `maze_find_target` of `maze.c`. -/
def maze_find_target (m : MazeT) (row col : Int) (d : Dir) : Char :=
  maze_find_target_go m d row col (m.grid.length + (m.grid.headD []).length)

/-- The extraction loop of `maze_get_view`: one (LEFT_WALL, CORRIDOR,
RIGHT_WALL) triple per corridor step `d`, stopping at the first corridor
step that leaves the grid.  Wall cells outside the grid are emitted as
the character `*`. -/
def maze_get_view_go (m : MazeT) (row col : Int) (gaze : Dir) :
    Nat → Nat → List (Char × Char × Char)
  | _, 0 => []
  | d, rem + 1 =>
    let r : Int := row + (d : Int) * drow gaze
    let c : Int := col + (d : Int) * dcol gaze
    if ¬ inB m r c then []
    else
      let rl := r + lrow gaze
      let cl := c + lcol gaze
      let rr := r - lrow gaze
      let cr := c - lcol gaze
      ((if ¬ inB m rl cl then '*' else cellAt m rl cl),
        cellAt m r c,
        (if ¬ inB m rr cr then '*' else cellAt m rr cr))
        :: maze_get_view_go m row col gaze (d + 1) rem

/-- `maze_get_view` of `maze.c`: the list of emitted view rows (the
returned `actual_depth` is its length). -/
def maze_get_view (m : MazeT) (row col : Int) (gaze : Dir) (depth : Nat) :
    List (Char × Char × Char) :=
  maze_get_view_go m row col gaze 0 depth

/-- Looking up a row of the grid with `getD` at an index in range is the
plain indexed element. -/
lemma getD_row (m : MazeT) (i : Nat) (hi : i < m.grid.length) :
    m.grid.getD i [] = m.grid[i] := by
  rw [List.getD_eq_getElem?_getD, List.getElem?_eq_getElem hi]; rfl

/-- In a uniform maze every row in range has length `maze_get_cols`. -/
lemma rowLen_eq (m : MazeT) (hU : Uniform m) (i : Nat) (hi : i < m.grid.length) :
    (m.grid.getD i []).length = (m.grid.headD []).length := by
  rw [getD_row m i hi]
  exact hU _ (List.getElem_mem hi)

lemma grid_length_setCell (m : MazeT) (r c : Int) (v : Char) :
    (setCell m r c v).grid.length = m.grid.length :=
  List.length_set ..

/-- Writing a cell keeps the length of the head row, hence `maze_get_cols`. -/
lemma headLen_setCell (m : MazeT) (r c : Int) (v : Char) :
    ((setCell m r c v).grid.headD []).length = (m.grid.headD []).length := by
  unfold setCell
  cases hg : m.grid with
  | nil => rfl
  | cons h t =>
    cases hi : r.toNat with
    | zero => simp [List.getD]
    | succ n => simp

lemma maze_get_rows_setCell (m : MazeT) (r c : Int) (v : Char) :
    maze_get_rows (setCell m r c v) = maze_get_rows m := by
  unfold maze_get_rows
  exact congrArg Nat.cast (grid_length_setCell m r c v)

lemma maze_get_cols_setCell (m : MazeT) (r c : Int) (v : Char) :
    maze_get_cols (setCell m r c v) = maze_get_cols m := by
  unfold maze_get_cols
  exact congrArg Nat.cast (headLen_setCell m r c v)

lemma inB_setCell (m : MazeT) (r c r2 c2 : Int) (v : Char) :
    inB (setCell m r c v) r2 c2 ↔ inB m r2 c2 := by
  unfold inB
  rw [maze_get_rows_setCell, maze_get_cols_setCell]

/-- Writing an in-range cell preserves uniformity. -/
lemma Uniform_setCell (m : MazeT) (r c : Int) (v : Char) (hU : Uniform m)
    (hin : r.toNat < m.grid.length) :
    Uniform (setCell m r c v) := by
  intro row hrow
  rw [headLen_setCell]
  rcases List.mem_or_eq_of_mem_set hrow with hmem | heq
  · exact hU _ hmem
  · subst heq
    rw [List.length_set, rowLen_eq m hU _ hin]

/-- How `cellAt` reads through a `setCell`, at in-bounds coordinates. -/
lemma cellAt_setCell (m : MazeT) (r c r2 c2 : Int) (v : Char)
    (hU : Uniform m) (h : inB m r c) (h2 : inB m r2 c2) :
    cellAt (setCell m r c v) r2 c2 =
      if r = r2 ∧ c = c2 then v else cellAt m r2 c2 := by
  obtain ⟨hr0, hr1, hc0, hc1⟩ := h
  obtain ⟨hr20, hr21, hc20, hc21⟩ := h2
  unfold maze_get_rows at hr1 hr21
  unfold maze_get_cols at hc1 hc21
  have hrn : r.toNat < m.grid.length := by omega
  have hr2n : r2.toNat < m.grid.length := by omega
  have hcn : c.toNat < (m.grid.getD r.toNat []).length := by
    rw [rowLen_eq m hU _ hrn]; omega
  have hc2n : c2.toNat < (m.grid.getD r2.toNat []).length := by
    rw [rowLen_eq m hU _ hr2n]; omega
  unfold cellAt setCell
  by_cases hrr : r = r2
  · subst hrr
    have e1 : ((m.grid.set r.toNat ((m.grid.getD r.toNat []).set c.toNat v)).getD
        r.toNat []) = (m.grid.getD r.toNat []).set c.toNat v := by
      rw [List.getD_eq_getElem?_getD, List.getElem?_set_self hrn]; rfl
    rw [e1]
    by_cases hcc : c = c2
    · subst hcc
      rw [if_pos ⟨rfl, rfl⟩]
      rw [List.getD_eq_getElem?_getD, List.getElem?_set_self hcn]; rfl
    · rw [if_neg (by tauto)]
      have hne : c.toNat ≠ c2.toNat := by omega
      rw [List.getD_eq_getElem?_getD, List.getElem?_set_ne hne,
        ← List.getD_eq_getElem?_getD]
  · rw [if_neg (by tauto)]
    have hne : r.toNat ≠ r2.toNat := by omega
    have e1 : ((m.grid.set r.toNat ((m.grid.getD r.toNat []).set c.toNat v)).getD
        r2.toNat []) = m.grid.getD r2.toNat [] := by
      rw [List.getD_eq_getElem?_getD, List.getElem?_set_ne hne,
        ← List.getD_eq_getElem?_getD]
    rw [e1]

/-- The forward offset of every direction is nonzero. -/
lemma offset_ne_zero (d : Dir) : drow d ≠ 0 ∨ dcol d ≠ 0 := by
  cases d <;> simp [drow, dcol]

/-- C3: `maze_move(r, c, d)` succeeds iff the source cell holds an AVATAR
and the forward neighbor `(r, c) + offset(d)` is in bounds and EMPTY, with
offsets `{N:(-1,0), W:(0,-1), S:(+1,0), E:(0,+1)}`; on success the avatar
byte has been written to the neighbor cell and EMPTY to the source cell. -/
theorem maze_move_spec (m : MazeT) (row col : Int) (d : Dir) (hU : Uniform m) :
    ((maze_move m row col d).isSome ↔
      (inB m row col ∧ IS_AVATAR (cellAt m row col) = true ∧
        inB m (row + drow d) (col + dcol d) ∧
        IS_EMPTY (cellAt m (row + drow d) (col + dcol d)) = true)) ∧
    ∀ m2, maze_move m row col d = some m2 →
      cellAt m2 (row + drow d) (col + dcol d) = cellAt m row col ∧
      cellAt m2 row col = EMPTY := by
  constructor
  · unfold maze_move
    split_ifs with h1 h2
    · refine iff_of_false (by simp) ?_
      intro h
      rcases h1 with h1 | h1
      · exact h1 h.1
      · exact h1 h.2.1
    · refine iff_of_false (by simp) ?_
      intro h
      rcases h2 with h2 | h2
      · exact h2 h.2.2.1
      · exact h2 h.2.2.2
    · push_neg at h1 h2
      simp only [Option.isSome_some, true_iff]
      exact ⟨h1.1, h1.2, h2.1, h2.2⟩
  · intro m2 hm2
    unfold maze_move at hm2
    split_ifs at hm2 with h1 h2
    push_neg at h1 h2
    obtain ⟨hs, ha⟩ := h1
    obtain ⟨hd, he⟩ := h2
    obtain rfl : setCell (setCell m (row + drow d) (col + dcol d)
        (cellAt m row col)) row col EMPTY = m2 := by
      exact Option.some.inj hm2
    have hsrcN : row.toNat < m.grid.length := by
      obtain ⟨a1, a2, a3, a4⟩ := hs
      unfold maze_get_rows at a2; omega
    have hdstN : (row + drow d).toNat < m.grid.length := by
      obtain ⟨a1, a2, a3, a4⟩ := hd
      unfold maze_get_rows at a2; omega
    have hU2 : Uniform (setCell m (row + drow d) (col + dcol d) (cellAt m row col)) :=
      Uniform_setCell m _ _ _ hU hdstN
    have hd2 : inB (setCell m (row + drow d) (col + dcol d) (cellAt m row col))
        (row + drow d) (col + dcol d) := (inB_setCell ..).mpr hd
    have hs2 : inB (setCell m (row + drow d) (col + dcol d) (cellAt m row col))
        row col := (inB_setCell ..).mpr hs
    have hne : ¬ (row = row + drow d ∧ col = col + dcol d) := by
      rcases offset_ne_zero d with h | h
      · intro ⟨e1, _⟩; omega
      · intro ⟨_, e2⟩; omega
    constructor
    · rw [cellAt_setCell _ _ _ _ _ _ hU2 hs2 hd2, if_neg hne,
        cellAt_setCell _ _ _ _ _ _ hU hd hd, if_pos ⟨rfl, rfl⟩]
    · rw [cellAt_setCell _ _ _ _ _ _ hU2 hs2 hs2, if_pos ⟨rfl, rfl⟩]

/-- Witness for C3 at a concrete maze: moving the avatar at the northwest
corner of a 1 x 2 maze eastward succeeds. -/
theorem maze_move_spec_witness :
    (maze_move ⟨[['A', ' ']]⟩ 0 0 Dir.east).isSome := by
  have h := maze_move_spec ⟨[['A', ' ']]⟩ 0 0 Dir.east (by decide)
  exact h.1.mpr (by decide)

/-- The view row that `maze_get_view` emits for corridor step `j`:
CORRIDOR is the cell at `(row, col) + j * forward`, LEFT_WALL the cell
offset by `(lrow, lcol)` from it (`*` when out of bounds), RIGHT_WALL the
cell offset by the negation `(-lrow, -lcol)` (`*` when out of bounds). -/
def viewTripleAt (m : MazeT) (row col : Int) (gaze : Dir) (j : Nat) :
    Char × Char × Char :=
  ((if ¬ inB m (row + (j : Int) * drow gaze + lrow gaze)
        (col + (j : Int) * dcol gaze + lcol gaze) then '*'
    else cellAt m (row + (j : Int) * drow gaze + lrow gaze)
      (col + (j : Int) * dcol gaze + lcol gaze)),
    cellAt m (row + (j : Int) * drow gaze) (col + (j : Int) * dcol gaze),
    (if ¬ inB m (row + (j : Int) * drow gaze - lrow gaze)
        (col + (j : Int) * dcol gaze - lcol gaze) then '*'
    else cellAt m (row + (j : Int) * drow gaze - lrow gaze)
      (col + (j : Int) * dcol gaze - lcol gaze)))

/-- One unfolding step of the view-extraction loop. -/
lemma maze_get_view_go_succ (m : MazeT) (row col : Int) (gaze : Dir)
    (d0 rem : Nat) :
    maze_get_view_go m row col gaze d0 (rem + 1) =
      if ¬ inB m (row + (d0 : Int) * drow gaze) (col + (d0 : Int) * dcol gaze)
        then []
      else viewTripleAt m row col gaze d0 ::
        maze_get_view_go m row col gaze (d0 + 1) rem := rfl

/-- The view-extraction loop, characterized: starting at step `d0` with
`rem` steps still allowed, it emits exactly the `viewTripleAt` rows of the
maximal run of in-bounds corridor steps. -/
lemma maze_get_view_go_spec (m : MazeT) (row col : Int) (gaze : Dir) :
    ∀ rem d0 : Nat,
      (maze_get_view_go m row col gaze d0 rem).length ≤ rem ∧
      (∀ i : Nat, i < (maze_get_view_go m row col gaze d0 rem).length →
        inB m (row + ((d0 + i : Nat) : Int) * drow gaze)
          (col + ((d0 + i : Nat) : Int) * dcol gaze) ∧
        (maze_get_view_go m row col gaze d0 rem).get? i =
          some (viewTripleAt m row col gaze (d0 + i))) ∧
      ((maze_get_view_go m row col gaze d0 rem).length < rem →
        ¬ inB m
          (row + ((d0 + (maze_get_view_go m row col gaze d0 rem).length : Nat) :
            Int) * drow gaze)
          (col + ((d0 + (maze_get_view_go m row col gaze d0 rem).length : Nat) :
            Int) * dcol gaze)) := by
  intro rem
  induction rem with
  | zero =>
    intro d0
    refine ⟨by simp [maze_get_view_go], ?_, ?_⟩
    · intro i hi
      simp [maze_get_view_go] at hi
    · intro hlt
      simp [maze_get_view_go] at hlt
  | succ rem ih =>
    intro d0
    rw [maze_get_view_go_succ]
    by_cases hin : inB m (row + (d0 : Int) * drow gaze)
        (col + (d0 : Int) * dcol gaze)
    · rw [if_neg (not_not_intro hin)]
      obtain ⟨ihlen, ihmid, ihstop⟩ := ih (d0 + 1)
      refine ⟨by simpa using ihlen, ?_, ?_⟩
      · intro i hi
        cases i with
        | zero =>
          constructor
          · simpa using hin
          · simp
        | succ i =>
          have hi2 : i < (maze_get_view_go m row col gaze (d0 + 1) rem).length := by
            simpa using hi
          have e : d0 + 1 + i = d0 + (i + 1) := by omega
          obtain ⟨hb, hg⟩ := ihmid i hi2
          rw [e] at hb hg
          exact ⟨hb, by simpa using hg⟩
      · intro hlt
        have hlt2 : (maze_get_view_go m row col gaze (d0 + 1) rem).length < rem := by
          simpa using hlt
        have e : d0 + 1 + (maze_get_view_go m row col gaze (d0 + 1) rem).length =
            d0 + ((viewTripleAt m row col gaze d0 ::
              maze_get_view_go m row col gaze (d0 + 1) rem).length) := by
          simp; omega
        have := ihstop hlt2
        rw [e] at this
        exact this
    · rw [if_pos hin]
      refine ⟨by simp, ?_, ?_⟩
      · intro i hi
        simp at hi
      · intro _
        simpa using hin

/-- C1 (amended to the offset tables the code uses): for every position,
gaze and depth, `maze_get_view` emits one row per corridor step before the
first out-of-bounds corridor cell and stops there; row `i` holds
CORRIDOR = the cell at `(row, col) + i * forward`, LEFT_WALL = the cell
offset from it by the code's per-direction table
`{N:(0,-1), W:(-1,0), S:(0,+1), E:(+1,0)}` (`*` when out of bounds), and
RIGHT_WALL the cell at the negated offset (`*` when out of bounds); the
returned count is the number of rows written. -/
theorem maze_get_view_spec (m : MazeT) (row col : Int) (gaze : Dir)
    (depth : Nat) :
    (maze_get_view m row col gaze depth).length ≤ depth ∧
    (∀ i : Nat, i < (maze_get_view m row col gaze depth).length →
      inB m (row + (i : Int) * drow gaze) (col + (i : Int) * dcol gaze) ∧
      (maze_get_view m row col gaze depth).get? i =
        some (viewTripleAt m row col gaze i)) ∧
    ((maze_get_view m row col gaze depth).length < depth →
      ¬ inB m
        (row + ((maze_get_view m row col gaze depth).length : Int) * drow gaze)
        (col + ((maze_get_view m row col gaze depth).length : Int) * dcol gaze)) := by
  obtain ⟨h1, h2, h3⟩ := maze_get_view_go_spec m row col gaze depth 0
  refine ⟨h1, ?_, ?_⟩
  · intro i hi
    have := h2 i hi
    simpa using this
  · intro hlt
    have := h3 hlt
    simpa using this

/-- C1 counterexample: the claim's left-perpendicular table
`{N:(0,-1), W:(+1,0), S:(0,+1), E:(-1,0)}` prescribes, for the gaze EAST
from the center of this 3 x 3 maze at depth 1, the single view row
`('B', 'E', 'H')` (LEFT_WALL, CORRIDOR, RIGHT_WALL); the code instead
emits `('H', 'E', 'B')`, i.e. the LEFT_WALL and RIGHT_WALL cells are
swapped for the EAST (and likewise WEST) gaze. -/
theorem maze_get_view_claim_counterexample :
    maze_get_view ⟨[['A', 'B', 'C'], ['D', 'E', 'F'], ['G', 'H', 'I']]⟩
        1 1 Dir.east 1 ≠ [('B', 'E', 'H')] ∧
    maze_get_view ⟨[['A', 'B', 'C'], ['D', 'E', 'F'], ['G', 'H', 'I']]⟩
        1 1 Dir.east 1 = [('H', 'E', 'B')] := by
  constructor
  · decide
  · decide

/-- Number of forward steps in direction `d` that certainly suffice to
leave the grid from `(row, col)`. -/
def gapB (m : MazeT) (row col : Int) (d : Dir) : Nat :=
  match d with
  | .north => row.toNat + 1
  | .south => (maze_get_rows m - row).toNat
  | .west => col.toNat + 1
  | .east => (maze_get_cols m - col).toNat

lemma gapB_pos (m : MazeT) (row col : Int) (d : Dir) (h : inB m row col) :
    1 ≤ gapB m row col d := by
  obtain ⟨h1, h2, h3, h4⟩ := h
  cases d <;> simp only [gapB] <;> omega

lemma gapB_step (m : MazeT) (row col : Int) (d : Dir)
    (h : inB m (row + drow d) (col + dcol d)) :
    gapB m (row + drow d) (col + dcol d) d + 1 = gapB m row col d := by
  obtain ⟨h1, h2, h3, h4⟩ := h
  cases d <;> simp only [gapB, drow, dcol] at * <;> omega

/-- One unfolding step of the scan loop. -/
lemma maze_find_target_go_succ (m : MazeT) (d : Dir) (row col : Int) (fuel : Nat) :
    maze_find_target_go m d row col (fuel + 1) =
      if inB m row col then
        (if ¬ inB m (row + drow d) (col + dcol d) then EMPTY
          else if ¬ IS_EMPTY (cellAt m (row + drow d) (col + dcol d)) then
            (if IS_AVATAR (cellAt m (row + drow d) (col + dcol d)) then
              cellAt m (row + drow d) (col + dcol d)
            else EMPTY)
          else maze_find_target_go m d (row + drow d) (col + dcol d) fuel)
      else EMPTY := rfl

/-- The scan loop of `maze_find_target`, characterized: with enough fuel it
stops at the first step `k >= 1` whose cell leaves the grid or is non-EMPTY,
and returns that cell when it is both in bounds and an AVATAR, EMPTY
otherwise. -/
lemma maze_find_target_go_spec (m : MazeT) (d : Dir) :
    ∀ fuel (row col : Int), inB m row col → gapB m row col d ≤ fuel →
    ∃ k : Nat, 1 ≤ k ∧
      (∀ j : Nat, 1 ≤ j → j < k →
        inB m (row + (j : Int) * drow d) (col + (j : Int) * dcol d) ∧
        cellAt m (row + (j : Int) * drow d) (col + (j : Int) * dcol d) = EMPTY) ∧
      (¬ inB m (row + (k : Int) * drow d) (col + (k : Int) * dcol d) ∨
        cellAt m (row + (k : Int) * drow d) (col + (k : Int) * dcol d) ≠ EMPTY) ∧
      maze_find_target_go m d row col fuel =
        (if inB m (row + (k : Int) * drow d) (col + (k : Int) * dcol d) ∧
            IS_AVATAR (cellAt m (row + (k : Int) * drow d)
              (col + (k : Int) * dcol d)) = true
          then cellAt m (row + (k : Int) * drow d) (col + (k : Int) * dcol d)
          else EMPTY) := by
  intro fuel
  induction fuel with
  | zero =>
    intro row col h hgap
    exact absurd hgap (by have := gapB_pos m row col d h; omega)
  | succ fuel ih =>
    intro row col h hgap
    rw [maze_find_target_go_succ, if_pos h]
    by_cases hnb : inB m (row + drow d) (col + dcol d)
    · by_cases hne : cellAt m (row + drow d) (col + dcol d) = EMPTY
      · -- the neighbor is an empty corridor cell: the loop continues there
        rw [if_neg (not_not_intro hnb), if_neg (by simp [IS_EMPTY, hne])]
        have hgap2 : gapB m (row + drow d) (col + dcol d) d ≤ fuel := by
          have := gapB_step m row col d hnb
          omega
        obtain ⟨k, hk1, hmid, hstop, hres⟩ := ih (row + drow d) (col + dcol d) hnb hgap2
        have e1 : ∀ i : Nat, row + ((i + 1 : Nat) : Int) * drow d =
            (row + drow d) + (i : Int) * drow d := by
          intro i; push_cast; ring
        have e2 : ∀ i : Nat, col + ((i + 1 : Nat) : Int) * dcol d =
            (col + dcol d) + (i : Int) * dcol d := by
          intro i; push_cast; ring
        refine ⟨k + 1, by omega, ?_, ?_, ?_⟩
        · intro j hj1 hjk
          rcases Nat.lt_or_ge j 2 with hj2 | hj2
          · obtain rfl : j = 1 := by omega
            have f1 : row + ((1 : Nat) : Int) * drow d = row + drow d := by
              push_cast; ring
            have f2 : col + ((1 : Nat) : Int) * dcol d = col + dcol d := by
              push_cast; ring
            rw [f1, f2]
            exact ⟨hnb, hne⟩
          · obtain ⟨i, rfl⟩ : ∃ i, j = i + 1 := ⟨j - 1, by omega⟩
            rw [e1 i, e2 i]
            exact hmid i (by omega) (by omega)
        · rw [e1 k, e2 k]
          exact hstop
        · rw [e1 k, e2 k]
          exact hres
      · -- the neighbor holds a non-EMPTY cell: the loop stops and reports it
        rw [if_neg (not_not_intro hnb), if_pos (by simp [IS_EMPTY, hne])]
        refine ⟨1, le_refl 1, fun j hj1 hjk => absurd hjk (by omega), ?_, ?_⟩
        · right
          have f1 : row + ((1 : Nat) : Int) * drow d = row + drow d := by
            push_cast; ring
          have f2 : col + ((1 : Nat) : Int) * dcol d = col + dcol d := by
            push_cast; ring
          rw [f1, f2]
          exact hne
        · have f1 : row + ((1 : Nat) : Int) * drow d = row + drow d := by
            push_cast; ring
          have f2 : col + ((1 : Nat) : Int) * dcol d = col + dcol d := by
            push_cast; ring
          rw [f1, f2]
          by_cases hav : IS_AVATAR (cellAt m (row + drow d) (col + dcol d)) = true
          · rw [if_pos hav, if_pos ⟨hnb, hav⟩]
          · rw [if_neg hav, if_neg (fun hx => hav hx.2)]
    · -- the step leaves the grid: the loop stops with EMPTY
      rw [if_pos hnb]
      refine ⟨1, le_refl 1, fun j hj1 hjk => absurd hjk (by omega), ?_, ?_⟩
      · left
        have f1 : row + ((1 : Nat) : Int) * drow d = row + drow d := by
          push_cast; ring
        have f2 : col + ((1 : Nat) : Int) * dcol d = col + dcol d := by
          push_cast; ring
        rw [f1, f2]
        exact hnb
      · have f1 : row + ((1 : Nat) : Int) * drow d = row + drow d := by
          push_cast; ring
        have f2 : col + ((1 : Nat) : Int) * dcol d = col + dcol d := by
          push_cast; ring
        rw [f1, f2]
        rw [if_neg (fun hx => hnb hx.1)]

/-- C8: `maze_find_target` steps cell by cell in direction `d` from
`(row, col)`, halts at the first non-EMPTY cell or at the grid edge,
returns that cell's byte when it is an AVATAR and EMPTY otherwise
(including at the edge), and, being a pure function of the maze, leaves
every maze cell unchanged. -/
theorem maze_find_target_spec (m : MazeT) (row col : Int) (d : Dir)
    (h : inB m row col) :
    ∃ k : Nat, 1 ≤ k ∧
      (∀ j : Nat, 1 ≤ j → j < k →
        inB m (row + (j : Int) * drow d) (col + (j : Int) * dcol d) ∧
        cellAt m (row + (j : Int) * drow d) (col + (j : Int) * dcol d) = EMPTY) ∧
      (¬ inB m (row + (k : Int) * drow d) (col + (k : Int) * dcol d) ∨
        cellAt m (row + (k : Int) * drow d) (col + (k : Int) * dcol d) ≠ EMPTY) ∧
      maze_find_target m row col d =
        (if inB m (row + (k : Int) * drow d) (col + (k : Int) * dcol d) ∧
            IS_AVATAR (cellAt m (row + (k : Int) * drow d)
              (col + (k : Int) * dcol d)) = true
          then cellAt m (row + (k : Int) * drow d) (col + (k : Int) * dcol d)
          else EMPTY) := by
  refine maze_find_target_go_spec m d (m.grid.length + (m.grid.headD []).length)
    row col h ?_
  obtain ⟨h1, h2, h3, h4⟩ := h
  unfold maze_get_rows at h2
  unfold maze_get_cols at h4
  cases d <;> simp only [gapB, maze_get_rows, maze_get_cols] <;> omega

/-- Witness for C8 at a concrete maze: the avatar at the west end of a
corridor sees the avatar at its east end. -/
theorem maze_find_target_spec_witness :
    maze_find_target ⟨[['A', ' ', ' ', 'B']]⟩ 0 0 Dir.east = 'B' := by
  obtain ⟨k, hk1, hmid, hstop, hres⟩ :=
    maze_find_target_spec ⟨[['A', ' ', ' ', 'B']]⟩ 0 0 Dir.east (by decide)
  exact by decide

/-- A protocol packet header, fields in host order.  Modelled from the
spec: `protocol.h` is not under src/; the spec fixes the MZW_PACKET field
list as type u8, size u16, param1..3 u8, timestamp_sec u32,
timestamp_nsec u32 (a fixed 16-byte record once padding is counted). -/
structure MZW_PACKET where
  type : Nat
  size : Nat
  param1 : Nat
  param2 : Nat
  param3 : Nat
  timestamp_sec : Nat
  timestamp_nsec : Nat
deriving DecidableEq

/-- The two network-order (big-endian) bytes of a 16-bit field: high byte
first, so the low byte sits at the higher offset. -/
def be16 (x : Nat) : List Nat := [x / 256 % 256, x % 256]

/-- The four network-order bytes of a 32-bit field. -/
def be32 (x : Nat) : List Nat :=
  [x / 16777216 % 256, x / 65536 % 256, x / 256 % 256, x % 256]

/-- `proto_send_packet` of `protocol.c`: stamps the timestamp fields with
the clock reading, converts `size` and both timestamps to network byte
order, writes the header in full, then the payload when `size > 0` and a
payload buffer is present.  The emitted byte stream lists the meaningful
header bytes in field order (struct padding carries no data and is
omitted); 16/32-bit stores wrap mod their width. -/
def proto_send_packet (pkt : MZW_PACKET) (data : Option (List Nat))
    (sec nsec : Nat) : List Nat :=
  ([pkt.type % 256] ++ be16 pkt.size ++
    [pkt.param1 % 256, pkt.param2 % 256, pkt.param3 % 256] ++
    be32 (sec % 4294967296) ++ be32 (nsec % 4294967296)) ++
  (if 0 < pkt.size % 65536 ∧ data.isSome = true then
    (data.getD []).take (pkt.size % 65536)
  else [])

/-- `proto_recv_packet` of `protocol.c`: reads the fixed-size header,
converts `size` and both timestamps back to host order, leaves the
single-byte fields untouched, and when `size > 0` reads exactly `size`
payload bytes (failing on a short stream).  Returns the parsed packet, the
payload buffer or `none`, and the unread remainder of the stream. -/
def proto_recv_packet (bytes : List Nat) :
    Option (MZW_PACKET × Option (List Nat) × List Nat) :=
  match bytes with
  | t :: s1 :: s0 :: p1 :: p2 :: p3 ::
      a3 :: a2 :: a1 :: a0 :: b3 :: b2 :: b1 :: b0 :: rest =>
    let sz := s1 * 256 + s0
    let pkt : MZW_PACKET :=
      { type := t, size := sz, param1 := p1, param2 := p2, param3 := p3,
        timestamp_sec := a3 * 16777216 + a2 * 65536 + a1 * 256 + a0,
        timestamp_nsec := b3 * 16777216 + b2 * 65536 + b1 * 256 + b0 }
    if sz > 0 then
      if sz ≤ rest.length then some (pkt, some (rest.take sz), rest.drop sz)
      else none
    else some (pkt, none, rest)
  | _ => none

/-- C4: decoding the encoded form of any frame yields the frame again,
except that the two timestamp fields carry the values the encoder stamped;
the type and the three single-byte params are unchanged, `size` and both
timestamps round-trip through network byte order, the payload bytes are
reproduced exactly when `size > 0`, and the low byte of `size` appears at
the higher wire offset. -/
theorem proto_roundtrip (pkt : MZW_PACKET) (payload : List Nat)
    (sec nsec : Nat) (ht : pkt.type < 256) (h1 : pkt.param1 < 256)
    (h2 : pkt.param2 < 256) (h3 : pkt.param3 < 256) (hs : pkt.size < 65536)
    (hsec : sec < 4294967296) (hnsec : nsec < 4294967296)
    (hlen : payload.length = pkt.size) :
    proto_recv_packet (proto_send_packet pkt (some payload) sec nsec) =
      some ({ pkt with timestamp_sec := sec, timestamp_nsec := nsec },
        (if pkt.size > 0 then some payload else none), []) ∧
    (proto_send_packet pkt (some payload) sec nsec).get? 1 =
      some (pkt.size / 256) ∧
    (proto_send_packet pkt (some payload) sec nsec).get? 2 =
      some (pkt.size % 256) := by
  have hsz : pkt.size % 65536 = pkt.size := Nat.mod_eq_of_lt hs
  have hsec2 : sec % 4294967296 = sec := Nat.mod_eq_of_lt hsec
  have hnsec2 : nsec % 4294967296 = nsec := Nat.mod_eq_of_lt hnsec
  have e16 : pkt.size / 256 % 256 * 256 + pkt.size % 256 = pkt.size := by
    omega
  have e32a : sec / 16777216 % 256 * 16777216 + sec / 65536 % 256 * 65536 +
      sec / 256 % 256 * 256 + sec % 256 = sec := by
    omega
  have e32b : nsec / 16777216 % 256 * 16777216 + nsec / 65536 % 256 * 65536 +
      nsec / 256 % 256 * 256 + nsec % 256 = nsec := by
    omega
  have hdiv : pkt.size / 256 % 256 = pkt.size / 256 := by
    omega
  have hle : pkt.size ≤ payload.length := by omega
  have htake : payload.take pkt.size = payload := by
    rw [← hlen]
    simp
  have hdrop : payload.drop pkt.size = [] := by
    rw [← hlen]
    simp
  refine ⟨?_, ?_, ?_⟩
  · unfold proto_send_packet be16 be32
    rw [hsz, hsec2, hnsec2]
    simp only [Option.isSome_some, Option.getD_some, eq_self_iff_true, and_true]
    by_cases hpos : 0 < pkt.size
    · rw [if_pos hpos, htake]
      simp only [List.cons_append, List.nil_append]
      simp only [proto_recv_packet]
      simp only [e16, e32a, e32b]
      simp only [if_pos hpos, if_pos hle]
      rw [htake, hdrop]
      simp only [Option.some.injEq, Prod.mk.injEq, MZW_PACKET.mk.injEq]
      and_intros <;> first | rfl | trivial | omega
    · rw [if_neg (by omega)]
      simp only [List.cons_append, List.nil_append, List.append_nil]
      simp only [proto_recv_packet]
      simp only [e16, e32a, e32b]
      rw [if_neg (by omega), if_neg (by omega)]
      simp only [Option.some.injEq, Prod.mk.injEq, MZW_PACKET.mk.injEq]
      and_intros <;> first | rfl | trivial | omega
  · unfold proto_send_packet be16 be32
    rw [hdiv]
    rfl
  · unfold proto_send_packet be16 be32
    rfl

/-- Witness for C4 at a concrete frame: a CHAT-like packet with a 2-byte
payload round-trips. -/
theorem proto_roundtrip_witness :
    proto_recv_packet (proto_send_packet
        ⟨13, 2, 65, 0, 0, 0, 0⟩ (some [104, 105]) 7 9) =
      some (⟨13, 2, 65, 0, 0, 7, 9⟩, some [104, 105], []) := by
  have h := proto_roundtrip ⟨13, 2, 65, 0, 0, 0, 0⟩ [104, 105] 7 9
    (by decide) (by decide) (by decide) (by decide) (by decide)
    (by decide) (by decide) (by decide)
  exact h.1

/-- The possible outcomes of one `read` call as `read_all` observes them:
`ok n` is a return of `n` bytes (`ok 0` is end of file), `intr` is a
failure with errno EINTR (the laser-hit signal interrupting the read), and
`err` is a failure with any other errno. -/
inductive RdRes where
  | ok (n : Nat)
  | intr
  | err
deriving DecidableEq

/-- True for every outcome except an EINTR interruption. -/
def notIntr : RdRes → Bool
  | RdRes.intr => false
  | _ => true

/-- `read_all` of `protocol.c`, driven by the stream `evs` of successive
`read` outcomes: while bytes remain to be read, a read of 0 bytes (EOF
mid-frame) or a non-EINTR failure yields the error result `some false`; an
EINTR interruption is retried transparently; a positive read consumes that
many bytes, and when nothing remains the success result is `some true`.
`none` means the outcome list ran out (in C the next `read` would block). -/
def read_all : List RdRes → Nat → Option Bool
  | _, 0 => some true
  | [], _ + 1 => none
  | RdRes.ok 0 :: _, _ + 1 => some false
  | RdRes.ok (n + 1) :: rest, count + 1 => read_all rest (count + 1 - (n + 1))
  | RdRes.intr :: rest, count + 1 => read_all rest (count + 1)
  | RdRes.err :: _, _ + 1 => some false

/-- An EINTR-free run of `read` outcomes on which the request must fail:
while bytes remain, the first outcome reached is an EOF or a non-EINTR
failure. -/
inductive ErrScan : List RdRes → Nat → Prop where
  | eofHit (rest : List RdRes) (count : Nat) :
      ErrScan (RdRes.ok 0 :: rest) (count + 1)
  | errHit (rest : List RdRes) (count : Nat) :
      ErrScan (RdRes.err :: rest) (count + 1)
  | step (n : Nat) (rest : List RdRes) (count : Nat) :
      ErrScan rest (count + 1 - (n + 1)) →
      ErrScan (RdRes.ok (n + 1) :: rest) (count + 1)

/-- A request for 0 bytes succeeds immediately whatever the stream. -/
lemma read_all_zero (evs : List RdRes) : read_all evs 0 = some true := by
  cases evs with
  | nil => rfl
  | cons e rest =>
    cases e with
    | ok n => cases n <;> rfl
    | intr => rfl
    | err => rfl

/-- Dropping EINTR outcomes from the stream never changes the result of
`read_all`: interruptions are retried transparently. -/
lemma read_all_filter (evs : List RdRes) :
    ∀ count : Nat, read_all evs count = read_all (evs.filter notIntr) count := by
  induction evs with
  | nil => intro count; rfl
  | cons e rest ih =>
    intro count
    cases count with
    | zero => rw [read_all_zero, read_all_zero]
    | succ c =>
      cases e with
      | ok n =>
        cases n with
        | zero => rfl
        | succ n =>
          rw [List.filter]
          show read_all rest (c + 1 - (n + 1)) = _
          rw [ih (c + 1 - (n + 1))]
          rfl
      | intr =>
        rw [List.filter]
        show read_all rest (c + 1) = _
        exact ih (c + 1)
      | err => rfl

/-- On an EINTR-free stream, `read_all` errs exactly on an `ErrScan` run. -/
lemma read_all_err_iff (evs : List RdRes) :
    ∀ count : Nat, (∀ e ∈ evs, notIntr e = true) →
      (read_all evs count = some false ↔ ErrScan evs count) := by
  induction evs with
  | nil =>
    intro count _
    constructor
    · intro h
      cases count with
      | zero => exact absurd h (by simp [read_all])
      | succ c => exact absurd h (by simp [read_all])
    · intro h
      cases h
  | cons e rest ih =>
    intro count hni
    cases count with
    | zero =>
      constructor
      · intro h
        exact absurd h (by simp [read_all])
      · intro h
        cases h
    | succ c =>
      cases e with
      | ok n =>
        cases n with
        | zero => exact iff_of_true rfl (ErrScan.eofHit rest c)
        | succ n =>
          have hx := ih (c + 1 - (n + 1)) (fun x hx => hni x (List.mem_cons_of_mem _ hx))
          constructor
          · intro h
            exact ErrScan.step n rest c (hx.mp h)
          · intro h
            cases h with
            | step _ _ _ h2 => exact hx.mpr h2
      | intr =>
        exact absurd (hni RdRes.intr (List.mem_cons_self _ _)) (by simp [notIntr])
      | err => exact iff_of_true rfl (ErrScan.errHit rest c)

/-- C5: for every sequence of `read` outcomes, `read_all` (the read
mechanism of `proto_recv_packet`) retries EINTR-interrupted reads
transparently — its result only depends on the EINTR-free outcomes, so the
interruption is never surfaced as a caller-visible error — and it returns
an error exactly when the EINTR-free run hits an EOF mid-frame or a
non-EINTR failure before the frame completes. -/
theorem read_all_signal_spec (evs : List RdRes) (count : Nat) :
    read_all evs count = read_all (evs.filter notIntr) count ∧
    (read_all evs count = some false ↔ ErrScan (evs.filter notIntr) count) := by
  refine ⟨read_all_filter evs count, ?_⟩
  rw [read_all_filter evs count]
  exact read_all_err_iff (evs.filter notIntr) count
    (fun e he => (List.mem_filter.mp he).2)

/-- The client registry state: the `client_fds` slot array (slot value -1
means unused) and the client count, as in `struct client_registry` of
`client_registry.c`.  The mutex and semaphore are modelled by atomic
sequential steps; a posted "drained" signal is returned explicitly. -/
structure CLIENT_REGISTRY where
  client_fds : List Int
  count : Int
deriving DecidableEq

/-- `creg_init` of `client_registry.c`: MAX_CLIENTS = 128 slots, all
marked unused (-1), count 0. -/
def creg_init : CLIENT_REGISTRY :=
  { client_fds := List.replicate 128 (-1), count := 0 }

/-- The scan-and-break loop shared by `creg_register` (old = -1) and
`creg_unregister` (old = fd): replace the first slot holding `old` by `v`,
or report `none` when no slot holds `old`. -/
def setFirstSlot : List Int → Int → Int → Option (List Int)
  | [], _, _ => none
  | x :: rest, old, v =>
    if x = old then some (v :: rest)
    else
      match setFirstSlot rest old v with
      | some r => some (x :: r)
      | none => none

/-- `creg_register` of `client_registry.c`: put `fd` into the first unused
slot and increment the count; when every slot is occupied the loop finds
no slot and the registry is left unchanged (the fd is silently dropped). -/
def creg_register (cr : CLIENT_REGISTRY) (fd : Int) : CLIENT_REGISTRY :=
  match setFirstSlot cr.client_fds (-1) fd with
  | some l => { client_fds := l, count := cr.count + 1 }
  | none => cr

/-- `creg_unregister` of `client_registry.c`: clear the first slot holding
`fd` and decrement the count; when `fd` is in no slot nothing changes.
Afterwards, whenever the count is 0, the drained semaphore is posted; the
returned Bool reports that post. -/
def creg_unregister (cr : CLIENT_REGISTRY) (fd : Int) : CLIENT_REGISTRY × Bool :=
  let cr2 :=
    match setFirstSlot cr.client_fds fd (-1) with
    | some l => ({ client_fds := l, count := cr.count - 1 } : CLIENT_REGISTRY)
    | none => cr
  (cr2, decide (cr2.count = 0))

/-- `creg_shutdown_all` of `client_registry.c`: the connection handles
whose read side is shut down, in slot order — every slot not holding -1. -/
def creg_shutdown_all (cr : CLIENT_REGISTRY) : List Int :=
  cr.client_fds.filter (fun x => decide (x ≠ -1))

/-- `creg_wait_for_empty` of `client_registry.c` returns without blocking
exactly when the count is 0. -/
def creg_wait_for_empty_immediate (cr : CLIENT_REGISTRY) : Bool :=
  decide (cr.count = 0)

/-- The slot scan fails exactly when no slot holds the sought value. -/
lemma setFirstSlot_eq_none (old v : Int) :
    ∀ l : List Int, (setFirstSlot l old v = none ↔ old ∉ l) := by
  intro l
  induction l with
  | nil => simp [setFirstSlot]
  | cons x rest ih =>
    by_cases hx : x = old
    · subst hx
      simp [setFirstSlot]
    · rw [setFirstSlot, if_neg hx]
      cases h : setFirstSlot rest old v with
      | some r =>
        have hmem : old ∈ rest := by
          by_contra hmem
          rw [← ih] at hmem
          rw [h] at hmem
          exact Option.noConfusion hmem
        constructor
        · intro habs
          exact Option.noConfusion habs
        · intro habs
          exact absurd (List.mem_cons_of_mem x hmem) habs
      | none =>
        have hmem : old ∉ rest := ih.mp h
        constructor
        · intro _ hor
          rcases List.mem_cons.mp hor with hor | hor
          · exact hx hor.symm
          · exact hmem hor
        · intro _
          rfl

/-- C10: the registry has a fixed capacity of MAX_CLIENTS = 128 handles;
with every slot of a (128-slot) registry occupied, `creg_register` leaves
the slot array and count unchanged — the new fd is silently untracked — so
`creg_shutdown_all` does not shut that fd down (and, the state being
unchanged, `creg_wait_for_empty` does not wait for it); and
`creg_unregister` of an fd held by no slot leaves the slots and count
unchanged yet still posts the drained signal exactly when the count is
0. -/
theorem creg_spec (cr : CLIENT_REGISTRY) (fd : Int)
    (hlen : cr.client_fds.length = 128)
    (hfull : ∀ x ∈ cr.client_fds, x ≠ -1)
    (hnot : fd ∉ cr.client_fds) :
    creg_init.client_fds.length = 128 ∧
    creg_register cr fd = cr ∧
    fd ∉ creg_shutdown_all (creg_register cr fd) ∧
    creg_wait_for_empty_immediate (creg_register cr fd) =
      creg_wait_for_empty_immediate cr ∧
    (creg_unregister cr fd).1 = cr ∧
    ((creg_unregister cr fd).2 = true ↔ cr.count = 0) := by
  have hreg : creg_register cr fd = cr := by
    unfold creg_register
    have hnone : setFirstSlot cr.client_fds (-1) fd = none :=
      (setFirstSlot_eq_none (-1) fd cr.client_fds).mpr
        (fun hmem => hfull (-1) hmem rfl)
    rw [hnone]
  have hunreg : setFirstSlot cr.client_fds fd (-1) = none :=
    (setFirstSlot_eq_none fd (-1) cr.client_fds).mpr hnot
  refine ⟨by simp [creg_init], hreg, ?_, by rw [hreg], ?_, ?_⟩
  · rw [hreg]
    intro hmem
    exact hnot (List.mem_of_mem_filter hmem)
  · show (creg_unregister cr fd).1 = cr
    unfold creg_unregister
    simp only [hunreg]
  · show (creg_unregister cr fd).2 = true ↔ cr.count = 0
    unfold creg_unregister
    simp only [hunreg]
    simp

set_option maxRecDepth 4000

/-- Witness for C10 at a concrete registry: all 128 slots hold fd 5, and
fd 7 is neither registered nor tracked for shutdown. -/
theorem creg_spec_witness :
    creg_register ⟨List.replicate 128 5, 128⟩ 7 = ⟨List.replicate 128 5, 128⟩ := by
  have h := creg_spec ⟨List.replicate 128 5, 128⟩ 7 (by decide) (by decide) (by decide)
  exact h.2.1

/-- A player record: the fields of `struct player` in player.c tracked by
the sequential model (the recursive mutex is modelled by atomic steps; the
cached view array and thread id carry no content the claims mention). -/
structure PLAYER where
  ref_count : Int
  client_fd : Int
  avatar : Char
  name : String
  row : Int
  col : Int
  dir : Dir
  score : Int
  laser_hit : Bool
  view_valid_depth : Int
deriving DecidableEq

/-- Externally visible actions of the player/service operations. -/
inductive PEvent where
  | sendInuse
  | sendReady
  | resetPlayer
  | sendScores
  | broadcastScore
  | updateViews
  | logoutPlayer
deriving DecidableEq

/-- `player_login` of player.c: under the table lock, fail if the avatar
is taken; otherwise allocate the record (ref 1, dir NORTH, score 0, view
cache invalid, name defaulting to "Anonymous"), attempt random placement
(failing the login and leaving the table untouched when it fails), and
install the record into the table. -/
def player_login (pm : Char → Option PLAYER) (m : MazeT)
    (rand : Nat → Nat × Nat) (clientfd : Int) (avatar : Char)
    (name : Option String) :
    (Char → Option PLAYER) × MazeT × Option PLAYER :=
  match pm avatar with
  | some _ => (pm, m, none)
  | none =>
    match maze_set_player_random m avatar rand with
    | none => (pm, m, none)
    | some (r, c, m2) =>
      let p : PLAYER :=
        { ref_count := 1, client_fd := clientfd, avatar := avatar,
          name := name.getD "Anonymous", row := r, col := c,
          dir := Dir.north, score := 0, laser_hit := false,
          view_valid_depth := -1 }
      (fun a => if a = avatar then some p else pm a, m2, some p)

/-- The LOGIN branch of one iteration of `mzw_client_service` in server.c:
a duplicate LOGIN while logged in is ignored; otherwise `player_login` is
attempted, a failure answers INUSE, and a success answers READY and then
resets the player.  The final Bool reports that the service loop continues
(the LOGIN branch always falls out of the switch, never out of the
loop). -/
def mzw_client_service_login (loggedIn : Bool) (pm : Char → Option PLAYER)
    (m : MazeT) (rand : Nat → Nat × Nat) (clientfd : Int) (avatar : Char)
    (payload : Option String) :
    (Char → Option PLAYER) × MazeT × Option PLAYER × List PEvent × Bool :=
  if loggedIn then (pm, m, none, [], true)
  else
    match player_login pm m rand clientfd avatar payload with
    | (pm2, m2, none) => (pm2, m2, none, [PEvent.sendInuse], true)
    | (pm2, m2, some p) =>
      (pm2, m2, some p, [PEvent.sendReady, PEvent.resetPlayer], true)

/-- C6: a LOGIN with an avatar already mapped in the player table is
rejected — the table (hence every existing player) is untouched, the
client is sent INUSE, and the service loop continues with the connection
open; a successful login installs a record with ref count 1, direction
NORTH and an invalid view cache, and the client receives READY followed by
a reset. -/
theorem player_login_spec (pm : Char → Option PLAYER) (m : MazeT)
    (rand : Nat → Nat × Nat) (clientfd : Int) (avatar : Char)
    (name : Option String) :
    (∀ q : PLAYER, pm avatar = some q →
      mzw_client_service_login false pm m rand clientfd avatar name =
        (pm, m, none, [PEvent.sendInuse], true)) ∧
    (pm avatar = none →
      ∀ (r c : Int) (m2 : MazeT),
        maze_set_player_random m avatar rand = some (r, c, m2) →
        ∃ p : PLAYER,
          mzw_client_service_login false pm m rand clientfd avatar name =
            ((fun a => if a = avatar then some p else pm a), m2, some p,
              [PEvent.sendReady, PEvent.resetPlayer], true) ∧
          p.ref_count = 1 ∧ p.dir = Dir.north ∧ p.view_valid_depth = -1) := by
  constructor
  · intro q hq
    unfold mzw_client_service_login player_login
    rw [if_neg (by simp)]
    rw [hq]
  · intro hq r c m2 hrand
    unfold mzw_client_service_login player_login
    rw [if_neg (by simp)]
    rw [hq, hrand]
    exact ⟨_, rfl, rfl, rfl, rfl⟩

/-- A concrete occupied player record, used by the C6 witness. -/
def alicePlayer : PLAYER :=
  { ref_count := 1, client_fd := 3, avatar := 'A', name := "alice",
    row := 0, col := 0, dir := Dir.north, score := 0, laser_hit := false,
    view_valid_depth := -1 }

/-- A concrete one-entry player table mapping avatar A, for the C6
witness. -/
def aliceTable : Char → Option PLAYER :=
  fun a => if a = 'A' then some alicePlayer else none

/-- Witness for C6 at a concrete state: a second LOGIN with the taken
avatar A is answered INUSE, the table is unchanged, and the loop
continues. -/
theorem player_login_spec_witness :
    mzw_client_service_login false aliceTable ⟨[[' ']]⟩ (fun _ => (0, 0)) 9 'A'
        (some "bob") =
      (aliceTable, ⟨[[' ']]⟩, none, [PEvent.sendInuse], true) := by
  exact (player_login_spec aliceTable ⟨[[' ']]⟩ (fun _ => (0, 0)) 9 'A'
    (some "bob")).1 alicePlayer (by simp [aliceTable])

/-- `player_reset` of player.c: remove the avatar from its current cell,
then attempt random re-placement.  When placement fails the function logs
and returns at once — the record keeps its old `row`, `col` AND its old
`score` (the `score = 0` write sits after the early return), the table is
untouched and nothing is sent; the player is left in limbo, not logged
out.  On success the coordinates are updated, the score is zeroed, and the
scoreboard/view traffic is emitted. -/
def player_reset (p : PLAYER) (pm : Char → Option PLAYER) (m : MazeT)
    (rand : Nat → Nat × Nat) :
    PLAYER × (Char → Option PLAYER) × MazeT × List PEvent :=
  match maze_set_player_random (maze_remove_player m p.avatar p.row p.col)
      p.avatar rand with
  | none => (p, pm, maze_remove_player m p.avatar p.row p.col, [])
  | some (r, c, m2) =>
    ({ p with row := r, col := c, score := 0 }, pm, m2,
      [PEvent.sendScores, PEvent.broadcastScore, PEvent.updateViews])

/-- On a maze with no EMPTY cell every placement attempt fails. -/
lemma maze_set_player_random_go_none (m : MazeT) (avatar : Char)
    (rand : Nat → Nat × Nat)
    (h : ∀ r c : Int, ¬ (inB m r c ∧ IS_EMPTY (cellAt m r c) = true)) :
    ∀ fuel i : Nat, maze_set_player_random_go m avatar rand i fuel = none := by
  intro fuel
  induction fuel with
  | zero => intro i; rfl
  | succ f ih =>
    intro i
    simp only [maze_set_player_random_go, maze_set_player]
    rw [if_neg (h _ _)]
    exact ih (i + 1)

/-- The 1 x 1 all-wall maze: no avatar can ever be placed. -/
def mazeFull : MazeT := ⟨[['*']]⟩

lemma mazeFull_no_empty :
    ∀ r c : Int, ¬ (inB mazeFull r c ∧ IS_EMPTY (cellAt mazeFull r c) = true) := by
  intro r c hc
  obtain ⟨⟨h1, h2, h3, h4⟩, he⟩ := hc
  unfold maze_get_rows at h2
  unfold maze_get_cols at h4
  simp only [mazeFull] at h2 h4
  norm_num at h2 h4
  obtain rfl : r = 0 := by omega
  obtain rfl : c = 0 := by omega
  exact absurd he (by decide)

lemma mazeFull_random_none (avatar : Char) (rand : Nat → Nat × Nat) :
    maze_set_player_random mazeFull avatar rand = none :=
  maze_set_player_random_go_none mazeFull avatar rand mazeFull_no_empty 1000 0

/-- A player with a nonzero score, used to exhibit the C2 failure path. -/
def bobPlayer : PLAYER :=
  { ref_count := 1, client_fd := 4, avatar := 'B', name := "bob",
    row := 0, col := 0, dir := Dir.north, score := 5, laser_hit := false,
    view_valid_depth := -1 }

/-- C2 counterexample: resetting a player with score 5 inside the full
maze hits the failed-placement path (random placement returns failure),
yet the returned record's score is still 5, not 0 — the `score = 0` write
in player.c sits after the early return, so the claim's "score freshly
zeroed" is false. -/
theorem player_reset_claim_counterexample :
    maze_set_player_random
        (maze_remove_player mazeFull bobPlayer.avatar bobPlayer.row
          bobPlayer.col) bobPlayer.avatar (fun _ => (0, 0)) = none ∧
    (player_reset bobPlayer aliceTable mazeFull (fun _ => (0, 0))).1.score = 5 ∧
    (5 : Int) ≠ 0 := by
  have hrem : maze_remove_player mazeFull bobPlayer.avatar bobPlayer.row
      bobPlayer.col = mazeFull := by
    unfold maze_remove_player
    rw [if_neg (by decide)]
  refine ⟨?_, ?_, by decide⟩
  · rw [hrem]
    exact mazeFull_random_none _ _
  · unfold player_reset
    rw [hrem, mazeFull_random_none]
    rfl

/-- C2 (amended): when the random re-placement inside `player_reset`
fails, the operation performs no position update and returns early: the
player record is returned entirely unchanged — stale `(row, col)` and the
OLD score, which is NOT zeroed, since the zeroing follows the early
return — the player table is untouched (the player stays in it; no
logout), and no packet/view traffic is emitted. -/
theorem player_reset_fail_spec (p : PLAYER) (pm : Char → Option PLAYER)
    (m : MazeT) (rand : Nat → Nat × Nat)
    (h : maze_set_player_random
      (maze_remove_player m p.avatar p.row p.col) p.avatar rand = none) :
    player_reset p pm m rand =
      (p, pm, maze_remove_player m p.avatar p.row p.col, []) ∧
    (player_reset p pm m rand).1.score = p.score ∧
    (player_reset p pm m rand).1.row = p.row ∧
    (player_reset p pm m rand).1.col = p.col := by
  have e : player_reset p pm m rand =
      (p, pm, maze_remove_player m p.avatar p.row p.col, []) := by
    unfold player_reset
    rw [h]
  exact ⟨e, by rw [e], by rw [e], by rw [e]⟩

/-- Witness for C2 (amended) at the concrete full maze: bob keeps score 5,
position (0,0), and stays in the table. -/
theorem player_reset_fail_spec_witness :
    player_reset bobPlayer aliceTable mazeFull (fun _ => (0, 0)) =
      (bobPlayer, aliceTable, mazeFull, []) := by
  have hrem : maze_remove_player mazeFull bobPlayer.avatar bobPlayer.row
      bobPlayer.col = mazeFull := by
    unfold maze_remove_player
    rw [if_neg (by decide)]
  have h := (player_reset_fail_spec bobPlayer aliceTable mazeFull
    (fun _ => (0, 0)) (by rw [hrem]; exact mazeFull_random_none _ _)).1
  rw [h, hrem]

/-- `player_send_chat` of player.c: `snprintf(buf, 1024, "%s[%c] %.*s",
name, avatar, len, msg)` formats `name ++ "[" ++ avatar ++ "] " ++ msg`
into the 1024-byte stack buffer.  snprintf returns the UNTRUNCATED
formatted length `n` and leaves at most 1023 formatted bytes (plus a NUL)
in the buffer; the CHAT packet's u16 `size` field is assigned `n` (hence
`n mod 2^16`).  The model returns the packet's size field and the valid
formatted bytes actually present in the buffer. -/
def player_send_chat (name : String) (avatar : Char) (msg : List Char) :
    Nat × List Char :=
  let formatted := name.data ++ '[' :: avatar :: ']' :: ' ' :: msg
  (formatted.length % 65536, formatted.take 1023)

/-- C9 counterexample: a name of 65532 characters and an empty message
format to exactly 65536 bytes — at least 1024, so the claim applies — yet
the u16 `size` field wraps to 0: it does not hold snprintf's return value
65536 and does not exceed the number of buffered payload bytes. -/
theorem player_send_chat_claim_counterexample :
    ((String.mk (List.replicate 65532 'a')).data ++
        '[' :: 'A' :: ']' :: ' ' :: ([] : List Char)).length = 65536 ∧
    (player_send_chat (String.mk (List.replicate 65532 'a')) 'A' []).1 = 0 := by
  have hdata : (String.mk (List.replicate 65532 'a')).data
      = List.replicate 65532 'a' := rfl
  have hfst : ∀ (name : String) (avatar : Char) (msg : List Char),
      (player_send_chat name avatar msg).1 =
        (name.data ++ '[' :: avatar :: ']' :: ' ' :: msg).length % 65536 :=
    fun _ _ _ => rfl
  constructor
  · rw [hdata, List.length_append, List.length_replicate]
    simp only [List.length_cons, List.length_nil]
  · rw [hfst, hdata, List.length_append, List.length_replicate]
    norm_num

/-- C9 (amended): for every name and message whose formatted form
`"<name>[<avatar>] <msg>"` has length `n < 65536`: when `n ≥ 1024` the
CHAT frame's `size` field is snprintf's untruncated return value `n`,
which exceeds the 1023 formatted bytes the 1024-byte buffer actually
holds, so the frame claims more payload bytes than the buffer carries;
when `n < 1024` the `size` field equals the number of valid buffered
payload bytes.  (For `n ≥ 65536` the u16 field wraps to `n mod 2^16`.) -/
theorem player_send_chat_spec (name : String) (avatar : Char)
    (msg : List Char)
    (hw : (name.data ++ '[' :: avatar :: ']' :: ' ' :: msg).length < 65536) :
    ((name.data ++ '[' :: avatar :: ']' :: ' ' :: msg).length ≥ 1024 →
      (player_send_chat name avatar msg).1 =
        (name.data ++ '[' :: avatar :: ']' :: ' ' :: msg).length ∧
      (player_send_chat name avatar msg).2.length = 1023 ∧
      (player_send_chat name avatar msg).1 >
        (player_send_chat name avatar msg).2.length) ∧
    ((name.data ++ '[' :: avatar :: ']' :: ' ' :: msg).length < 1024 →
      (player_send_chat name avatar msg).1 =
        (player_send_chat name avatar msg).2.length) := by
  unfold player_send_chat
  simp only [List.length_take]
  constructor
  · intro hge
    refine ⟨by omega, by omega, by omega⟩
  · intro hlt
    omega

/-- Witness for C9 (amended) at a concrete chat: "alice[A] hi" has 11
bytes, so the size field equals the 11 buffered payload bytes. -/
theorem player_send_chat_spec_witness :
    (player_send_chat "alice" 'A' ['h', 'i']).1 =
      (player_send_chat "alice" 'A' ['h', 'i']).2.length := by
  exact (player_send_chat_spec "alice" 'A' ['h', 'i'] (by decide)).2 (by decide)

/-- The teardown actions of `terminate` in main.c, in order. -/
inductive TEvent where
  | closeListen
  | shutdownAll
  | waitForEmpty
  | cregFiniEv
  | playerFiniEv
  | mazeFiniEv
  | exitProc
deriving DecidableEq

/-- `terminate` of main.c as the trace of its actions: close the listening
socket (when open), `creg_shutdown_all`, `creg_wait_for_empty`, then
finalize the modules in the order registry, player, maze, and exit. -/
def terminate (listenfdPositive : Bool) : List TEvent :=
  (if listenfdPositive then [TEvent.closeListen] else []) ++
    [TEvent.shutdownAll, TEvent.waitForEmpty, TEvent.cregFiniEv,
      TEvent.playerFiniEv, TEvent.mazeFiniEv, TEvent.exitProc]

/-- `player_fini` of player.c: the table indices it unrefs — every index
whose table entry is occupied. -/
def player_fini (pm : Char → Option PLAYER) : List Nat :=
  (List.range 256).filter (fun i => (pm (Char.ofNat i)).isSome)

/-- C7 counterexample: the teardown trace of `terminate` is not the
claimed order "close, shutdown_all, wait_for_empty, player fini, maze
fini, registry fini, exit" — main.c finalizes the registry BEFORE the
player module and the maze. -/
theorem terminate_claim_counterexample :
    terminate true ≠
      [TEvent.closeListen, TEvent.shutdownAll, TEvent.waitForEmpty,
        TEvent.playerFiniEv, TEvent.mazeFiniEv, TEvent.cregFiniEv,
        TEvent.exitProc] := by
  decide

/-- C7 (amended): on the graceful-stop signal, `terminate` closes the
listening socket, runs `creg_shutdown_all` then `creg_wait_for_empty`,
then finalizes the REGISTRY, then the player module — which unrefs every
remaining table entry, and only those — then the maze, then exits. -/
theorem terminate_spec (pm : Char → Option PLAYER) :
    terminate true =
      [TEvent.closeListen, TEvent.shutdownAll, TEvent.waitForEmpty,
        TEvent.cregFiniEv, TEvent.playerFiniEv, TEvent.mazeFiniEv,
        TEvent.exitProc] ∧
    (∀ i : Nat, i < 256 →
      (i ∈ player_fini pm ↔ (pm (Char.ofNat i)).isSome = true)) := by
  constructor
  · rfl
  · intro i hi
    simp [player_fini, List.mem_filter, List.mem_range, hi]

end MazeWar
